import Mathlib

/-!
Shallow embedding of the cf_tempmail frontend logic under verification:

* the inline-image reference resolver `processHtmlContent` together with its
  helpers (`getAttachmentUrl`, `escapeRegExp`) from
  `src/frontend/src/components/EmailDetail.tsx`, and
* the fetch / delete handlers of `EmailDetail.tsx` and of the mailbox page
  (`src/unnamed/part_000`), modelled as pure functions from an HTTP response
  shape to the list of UI effects the handler performs.

Strings are modelled as `List Char` in the resolver core (with `String`
wrappers mirroring the TypeScript signatures).  JavaScript regular-expression
operations are embedded by their denotation on the concrete patterns the
source builds; each embedded operation carries a comment pointing at the
regex it implements.  Scanning loops that can jump forward by more than one
character are written with an explicit fuel argument initialised to the
input length; every step consumes at least one character, so the fuel bound
is never reached.
-/

namespace CfTempmail

/-! ### Character and string primitives (ASCII case model)

JavaScript `String.prototype.toLowerCase` and the regex `i` flag both use
simple case folding, which on the ASCII range maps `A`-`Z` to `a`-`z` and
leaves everything else unchanged.  All inputs in the specification are
ASCII, so the embedding folds case on the ASCII range only. -/

/-- The single-quote character. -/
def squote : Char := Char.ofNat 39

/-- The double-quote character. -/
def dquote : Char := '"'

/-- The backtick character. -/
def bquote : Char := Char.ofNat 96

/-- ASCII lower-casing of one character. -/
def lcChar (c : Char) : Char :=
  if 65 ≤ c.toNat ∧ c.toNat ≤ 90 then Char.ofNat (c.toNat + 32) else c

/-- ASCII lower-casing of a character list (`toLowerCase`). -/
def lowerL (l : List Char) : List Char := l.map lcChar

/-- Does `l` start with `pat` (case-sensitive)? -/
def startsWithL : List Char → List Char → Bool
  | [], _ => true
  | _ :: _, [] => false
  | p :: ps, c :: cs => (p == c) && startsWithL ps cs

/-- Does `l` start with `pat`, comparing ASCII case-insensitively? -/
def startsWithCI : List Char → List Char → Bool
  | [], _ => true
  | _ :: _, [] => false
  | p :: ps, c :: cs => (lcChar p == lcChar c) && startsWithCI ps cs

/-- Does `pat` occur in `l` as a contiguous run, case-insensitively? -/
def containsTokCI (pat : List Char) : List Char → Bool
  | [] => false
  | c :: r => startsWithCI pat (c :: r) || containsTokCI pat r

/-! ### Data model -/

/-- The `Attachment` record of `EmailDetail.tsx`. -/
structure Attachment where
  id : String
  emailId : String
  filename : String
  mimeType : String
  size : Nat
  createdAt : Nat
  isLarge : Bool
  chunksCount : Nat
deriving DecidableEq, Repr

/-- Backend base URL imported from `../config`.  Modelled from the spec: the
config module is not under `src/`; the resolver treats it as an arbitrary
fixed string and no theorem depends on its characters. -/
def API_BASE_URL : String := "https://tempmail.example"

/-- `getAttachmentUrl` of `EmailDetail.tsx` (lines 228-230). -/
def getAttachmentUrl (attachmentId : String) (download : Bool) : String :=
  API_BASE_URL ++ "/api/attachments/" ++ attachmentId ++
    (if download then "?download=true" else "")

/-! ### escapeRegExp (EmailDetail.tsx lines 303-305) -/

/-- The characters escaped by `escapeRegExp`, i.e. the character class
of regex metacharacters in the source. -/
def isRegexMeta (c : Char) : Bool :=
  c == '.' || c == '*' || c == '+' || c == '?' || c == '^' || c == '$' ||
  c == Char.ofNat 123 || c == Char.ofNat 125 || c == '(' || c == ')' ||
  c == '|' || c == '[' || c == ']' || c == '\\'

/-- `escapeRegExp`: prepend a backslash to every regex metacharacter
(the global character-class replace of the source). -/
def escapeRegExp : List Char → List Char
  | [] => []
  | c :: r => if isRegexMeta c then '\\' :: c :: escapeRegExp r else c :: escapeRegExp r

/-- Removing the escaping backslashes again (used to state that
`escapeRegExp` is information-preserving). -/
def unescapeRegex : List Char → List Char
  | [] => []
  | '\\' :: c :: r => c :: unescapeRegex r
  | c :: r => c :: unescapeRegex r

/-- A pattern fragment is an escaped literal: every metacharacter is
preceded by a backslash, every other character stands alone.  Such a
fragment is a syntactically valid regex that matches its unescaped text
literally. -/
def escapedLiteral : List Char → Bool
  | [] => true
  | [c] => !isRegexMeta c
  | c :: d :: r =>
    if c = '\\' then isRegexMeta d && escapedLiteral r
    else !isRegexMeta c && escapedLiteral (d :: r)

/-! ### JavaScript regex operations used by the resolver

Each definition below is the denotation of one concrete regex operation of
`processHtmlContent` (EmailDetail.tsx lines 233-300). -/

/-- Split a character list at its first occurrence of a given stop test:
`some (before, after)` with the stop character dropped. -/
def splitAtFirst (stop : Char → Bool) : List Char → Option (List Char × List Char)
  | [] => none
  | c :: cs =>
    if stop c then some ([], cs)
    else (splitAtFirst stop cs).map (fun p => (c :: p.1, p.2))

/-- Is the character one of the two quote characters of the class used in
the source patterns? -/
def isQuoteChar (c : Char) : Bool := c == dquote || c == squote

/-- Attempt, at the head of `l`, of the src-value regex of line 250 with
flag `i`: the letters src and an equals sign, an opening quote of either
kind, a captured group of one or more non-quote characters, a closing
quote of either kind.  On success return the captured value. -/
def trySrcCapture (l : List Char) : Option (List Char) :=
  if startsWithCI ('s' :: 'r' :: 'c' :: '=' :: []) l then
    match l.drop 4 with
    | q :: rest =>
      if isQuoteChar q then
        match splitAtFirst isQuoteChar rest with
        | some (content, _) => if content = [] then none else some content
        | none => none
      else none
    | [] => none
  else none

/-- The match call of line 250: first occurrence of the src-value pattern
in the tag, returning the captured attribute value. -/
def findSrcMatch : List Char → Option (List Char)
  | [] => none
  | c :: rest =>
    match trySrcCapture (c :: rest) with
    | some cap => some cap
    | none => findSrcMatch rest

/-- Attempt, at the head of `l`, of the case-sensitive src-attribute regex
of line 274 (lowercase src and equals sign, then a non-empty quoted value):
on success return the length of the matched substring. -/
def trySrcAttrLen (l : List Char) : Option Nat :=
  if startsWithL ('s' :: 'r' :: 'c' :: '=' :: []) l then
    match l.drop 4 with
    | q :: rest =>
      if isQuoteChar q then
        match splitAtFirst isQuoteChar rest with
        | some (content, _) =>
          if content = [] then none else some (content.length + 6)
        | none => none
      else none
    | [] => none
  else none

/-- JavaScript `$`-substitution performed on a string replacement argument.
The regexes of the resolver have no capture groups and no named groups, so
only the sequences dollar-dollar, dollar-ampersand, dollar-backtick and
dollar-quote are special; anything else after a dollar stays literal. -/
def jsSubst (matched before after : List Char) : List Char → List Char
  | [] => []
  | [c] => [c]
  | c :: d :: r2 =>
    if c = '$' then
      if d = '$' then '$' :: jsSubst matched before after r2
      else if d = '&' then matched ++ jsSubst matched before after r2
      else if d = bquote then before ++ jsSubst matched before after r2
      else if d = squote then after ++ jsSubst matched before after r2
      else c :: jsSubst matched before after (d :: r2)
    else c :: jsSubst matched before after (d :: r2)

/-- The replace call of line 274: replace the first occurrence of a
case-sensitively written src attribute by the replacement string `repl`,
applying dollar-substitution; `pre` accumulates the scanned text. -/
def replaceFirstSrc (repl : List Char) (pre : List Char) : List Char → List Char
  | [] => []
  | c :: rest =>
    match trySrcAttrLen (c :: rest) with
    | some n =>
      jsSubst ((c :: rest).take n) pre ((c :: rest).drop n) repl ++ (c :: rest).drop n
    | none => c :: replaceFirstSrc repl (pre ++ [c]) rest

/-- Does `l` start with `<img`, with the letters compared case-insensitively
(the opening of the pattern of the tag scan)? -/
def isImgStart (l : List Char) : Bool :=
  startsWithCI ('<' :: 'i' :: 'm' :: 'g' :: []) l

/-- `processedHtml.replace(/<img[^>]*>/gi, f)`: scan left to right, rewrite
every maximal-munch `<img ... >` run through the callback `f` and continue
after it.  Fuel is initialised to the input length; every step consumes at
least one character, so the `0` case is unreachable from the wrapper. -/
def replaceImgTagsF (f : List Char → List Char) : Nat → List Char → List Char
  | 0, l => l
  | _ + 1, [] => []
  | fuel + 1, c :: rest =>
    if isImgStart (c :: rest) then
      match splitAtFirst (fun x => x == '>') (rest.drop 3) with
      | some (mid, after) =>
        f ('<' :: (rest.take 3 ++ (mid ++ ['>']))) ++ replaceImgTagsF f fuel after
      | none => c :: replaceImgTagsF f fuel rest
    else c :: replaceImgTagsF f fuel rest

/-- Wrapper fixing the fuel of the tag scan. -/
def replaceImgTags (f : List Char → List Char) (l : List Char) : List Char :=
  replaceImgTagsF f l.length l

/-! ### The cid matcher and the per-tag callback (lines 248-279) -/

/-- The head of the split of the filename at dots (line 268): the part of
the filename before its first dot. -/
def stem (l : List Char) : List Char := l.takeWhile (fun c => !(c == '.'))

/-- The attachment-matching disjunction of the source (lines 260-270),
applied to the cid value stripped of its `cid:` we prefix. -/
def attMatches (cidValue : List Char) (att : Attachment) : Bool :=
  let filename := att.filename.data
  cidValue == filename ||
  cidValue == att.id.data ||
  cidValue == lowerL filename ||
  lowerL cidValue == lowerL filename ||
  cidValue == stem filename ||
  lowerL cidValue == lowerL (stem filename)

/-- The replacement string of line 274: `src="` followed by the attachment
URL and a closing double quote. -/
def srcRepl (url : String) : List Char :=
  's' :: 'r' :: 'c' :: '=' :: dquote :: (url.data ++ [dquote])

/-- The arrow-function callback passed to the tag scan (lines 248-279):
extract the `src` value, check for a `cid:` scheme, look for the first
matching image attachment and, if found, rewrite the `src` attribute. -/
def processImgTag (imageAttachments : List Attachment) (imgTag : List Char) : List Char :=
  match findSrcMatch imgTag with
  | none => imgTag
  | some srcValue =>
    if startsWithL ('c' :: 'i' :: 'd' :: ':' :: []) (lowerL srcValue) then
      match imageAttachments.find? (attMatches (srcValue.drop 4)) with
      | some att => replaceFirstSrc (srcRepl (getAttachmentUrl att.id true)) [] imgTag
      | none => imgTag
    else imgTag

/-! ### The residual cid pass (lines 282-297)

For each image attachment, three regexes are built over the escaped
filename and applied in sequence with flags `gi`:
`(?<!<img[^>]*)cid:FN(?![^<]*>)` and the same with the filename wrapped in
double or single quotes.  The lookbehind blocks a match whose preceding
text ends in an unclosed `<img`; the lookahead blocks a match followed by a
`>` before any `<`.  The escaped filename under flag `i` denotes the
case-insensitive literal filename (see the escapeRegExp theorems below). -/

/-- The suffix of `l` strictly after its last `>` (all of `l` when there is
none): the region the lookbehind has to inspect. -/
def afterLastGt (l : List Char) : List Char :=
  (l.reverse.takeWhile (fun c => !(c == '>'))).reverse

/-- Negative lookbehind `(?<!<img[^>]*)` evaluated at a position whose
preceding text is `pre`: it holds unless an `<img` occurs with no later
`>` before the position. -/
def lookbehindOk (pre : List Char) : Bool :=
  !(containsTokCI ('<' :: 'i' :: 'm' :: 'g' :: []) (afterLastGt pre))

/-- Negative lookahead `(?![^<]*>)` evaluated on the following text: it
holds unless a `>` occurs before the first `<`. -/
def lookaheadOk (after : List Char) : Bool :=
  !((after.takeWhile (fun c => !(c == '<'))).contains '>')

/-- One global, case-insensitive, lookaround-guarded replacement of the
token `t0 :: ts` by the replacement string `url` (with `$`-substitution).
`pre` is the original text already scanned.  Fuel is initialised to the
input length; every step consumes at least one character. -/
def gReplF (t0 : Char) (ts url : List Char) : Nat → List Char → List Char → List Char
  | 0, _, l => l
  | _ + 1, _, [] => []
  | fuel + 1, pre, c :: rest =>
    if startsWithCI (t0 :: ts) (c :: rest) && lookbehindOk pre &&
        lookaheadOk (rest.drop ts.length) then
      jsSubst (c :: rest.take ts.length) pre (rest.drop ts.length) url ++
        gReplF t0 ts url fuel (pre ++ (c :: rest.take ts.length)) (rest.drop ts.length)
    else c :: gReplF t0 ts url fuel (pre ++ [c]) rest

/-- Wrapper fixing the fuel and the empty initial prefix of one global
replacement. -/
def gRepl (tok url l : List Char) : List Char :=
  match tok with
  | [] => l
  | t0 :: ts => gReplF t0 ts url l.length [] l

/-- The three sequential pattern replacements performed for one attachment
by the `forEach` body (lines 282-297). -/
def residualOne (att : Attachment) (h : List Char) : List Char :=
  let url := (getAttachmentUrl att.id true).data
  let fn := att.filename.data
  let h1 := gRepl (('c' :: 'i' :: 'd' :: ':' :: []) ++ fn) url h
  let h2 := gRepl (('c' :: 'i' :: 'd' :: ':' :: dquote :: []) ++ (fn ++ [dquote])) url h1
  gRepl (('c' :: 'i' :: 'd' :: ':' :: squote :: []) ++ (fn ++ [squote])) url h2

/-! ### processHtmlContent (lines 233-300) -/

/-- The mime filter of line 241. -/
def isImageAtt (att : Attachment) : Bool :=
  startsWithL ("image/".data) att.mimeType.data

/-- `processHtmlContent`: the inline-image reference resolver. -/
def processHtmlContent (htmlContent : String) (attachments : List Attachment) : String :=
  if htmlContent = "" ∨ attachments = [] then htmlContent
  else
    let imageAttachments := attachments.filter isImageAtt
    if imageAttachments = [] then htmlContent
    else
      let afterTags := replaceImgTags (processImgTag imageAttachments) htmlContent.data
      String.mk (imageAttachments.foldl (fun h att => residualOne att h) afterTags)

/-! ### URL-collecting variant of the resolver

`processWithUrls` mirrors `processHtmlContent` step for step while also
recording every attachment URL the resolver constructs and hands to a
replacement operation (line 273 inside the tag callback, line 283 inside
the `forEach` body, which builds the URL for every image attachment before
testing its patterns).  The linking theorems below show its first component
coincides with `processHtmlContent`. -/

/-- The tag callback, also returning the URL it used (if any). -/
def processImgTagU (imageAttachments : List Attachment) (imgTag : List Char) :
    List Char × List String :=
  match findSrcMatch imgTag with
  | none => (imgTag, [])
  | some srcValue =>
    if startsWithL ('c' :: 'i' :: 'd' :: ':' :: []) (lowerL srcValue) then
      match imageAttachments.find? (attMatches (srcValue.drop 4)) with
      | some att =>
        (replaceFirstSrc (srcRepl (getAttachmentUrl att.id true)) [] imgTag,
          [getAttachmentUrl att.id true])
      | none => (imgTag, [])
    else (imgTag, [])

/-- The tag scan, also collecting the URLs used by the callback. -/
def replaceImgTagsUF (atts : List Attachment) : Nat → List Char → List Char × List String
  | 0, l => (l, [])
  | _ + 1, [] => ([], [])
  | fuel + 1, c :: rest =>
    if isImgStart (c :: rest) then
      match splitAtFirst (fun x => x == '>') (rest.drop 3) with
      | some (mid, after) =>
        let t := processImgTagU atts ('<' :: (rest.take 3 ++ (mid ++ ['>'])))
        let r2 := replaceImgTagsUF atts fuel after
        (t.1 ++ r2.1, t.2 ++ r2.2)
      | none =>
        let r2 := replaceImgTagsUF atts fuel rest
        (c :: r2.1, r2.2)
    else
      let r2 := replaceImgTagsUF atts fuel rest
      (c :: r2.1, r2.2)

/-- The resolver together with the list of every attachment URL it builds
for a replacement (tag pass and residual pass). -/
def processWithUrls (htmlContent : String) (attachments : List Attachment) :
    String × List String :=
  if htmlContent = "" ∨ attachments = [] then (htmlContent, [])
  else
    let imageAttachments := attachments.filter isImageAtt
    if imageAttachments = [] then (htmlContent, [])
    else
      let t := replaceImgTagsUF imageAttachments htmlContent.data.length htmlContent.data
      (String.mk (imageAttachments.foldl (fun h att => residualOne att h) t.1),
        t.2 ++ imageAttachments.map (fun att => getAttachmentUrl att.id true))

/-! ### Effect model of the fetch and delete handlers

Each handler of `EmailDetail.tsx` and of the mailbox page
(`src/unnamed/part_000`) is a straight-line `async` function whose
behaviour is determined by the HTTP response; the embedding maps the
response shape to the ordered list of UI effects the handler performs.
The i18n function `t` is modelled as the identity on message keys, and a
successfully parsed JSON body is assumed (parse failures join the generic
catch path, which is the same effect list as a non-ok response). -/

/-- Shape of an HTTP response as far as the handlers inspect it. -/
structure HttpResp where
  ok : Bool
  status : Nat
  success : Bool
  hasAttachments : Bool
deriving DecidableEq, Repr

/-- What a scheduled timeout does when it fires. -/
inductive TimerAct where
  | clearError
  | navigateHome
  | closeDetail
deriving DecidableEq, Repr

/-- One UI effect performed by a handler. -/
inductive Eff where
  | clearMessages
  | setError (msg : String)
  | setSuccess (msg : String)
  | timer (ms : Nat) (act : TimerAct)
  | recoverMailbox
  | closeDetail
  | setEmailState
  | setMailboxState
  | fetchAtts
  | addToCache
deriving DecidableEq, Repr

/-- `fetchEmail` of `EmailDetail.tsx` (lines 48-105).  `recoverMailbox` is
the `handleMailboxNotFound()` call of the mailbox context: it clears the
local cache and re-provisions a mailbox. -/
def fetchEmailEffects (cached : Bool) (r : HttpResp) : List Eff :=
  if cached then [.clearMessages, .setEmailState]
  else if !r.ok then
    if r.status = 404 then [.clearMessages, .recoverMailbox, .closeDetail]
    else [.clearMessages, .setError "email.fetchFailed", .timer 3000 .clearError]
  else if r.success then
    if r.hasAttachments then [.clearMessages, .setEmailState, .fetchAtts]
    else [.clearMessages, .setEmailState, .addToCache]
  else [.clearMessages, .setError "email.fetchFailed", .timer 3000 .clearError]

/-- `fetchMailbox` of the mailbox page (`src/unnamed/part_000`,
lines 45-85).  The thrown-error strings of the catch path are modelled by
their default texts. -/
def fetchMailboxEffects (r : HttpResp) : List Eff :=
  if !r.ok then
    if r.status = 404 then
      [.setError "mailbox.invalidAddress", .timer 3000 .navigateHome]
    else [.setError "Error: Failed to fetch mailbox", .timer 3000 .clearError]
  else if r.success then [.setMailboxState]
  else [.setError "Error: Unknown error", .timer 3000 .clearError]

/-- `handleDeleteMailbox` of the mailbox page (lines 91-128). -/
def deleteMailboxEffects (r : HttpResp) : List Eff :=
  if !r.ok then [.setError "mailbox.deleteFailed", .timer 3000 .clearError]
  else if r.success then
    [.setSuccess "mailbox.deleteSuccess", .timer 2000 .navigateHome]
  else [.setError "mailbox.deleteFailed", .timer 3000 .clearError]

/-- `handleDelete` of `EmailDetail.tsx` (lines 140-179). -/
def deleteEmailEffects (r : HttpResp) : List Eff :=
  if !r.ok then [.clearMessages, .setError "email.deleteFailed", .timer 3000 .clearError]
  else if r.success then
    [.clearMessages, .setSuccess "email.deleteSuccess", .timer 2000 .closeDetail]
  else [.clearMessages, .setError "email.deleteFailed", .timer 3000 .clearError]

/-- Is a timeout with the given delay scheduled in the effect list? -/
def timerWithDelay (ms : Nat) (l : List Eff) : Bool :=
  l.any (fun e => match e with | .timer d _ => d == ms | _ => false)

/-- Every error notification in the list comes with a 3-second timer and
every success confirmation with a 2-second timer. -/
def notifTimersOk (l : List Eff) : Prop :=
  ((∃ m, Eff.setError m ∈ l) → timerWithDelay 3000 l = true) ∧
  ((∃ m, Eff.setSuccess m ∈ l) → timerWithDelay 2000 l = true)

/-- Does the effect list set an error message? -/
def hasErrorNotif (l : List Eff) : Bool :=
  l.any (fun e => match e with | .setError _ => true | _ => false)

/-! ### Spec-side predicate and concrete fixtures -/

/-- Follows the words of the spec (section 4.1): the cid value matches an
attachment by exact filename, exact id, case-insensitive filename, or
filename without extension (exact and case-insensitive). -/
def specCidCriteria (cid : List Char) (att : Attachment) : Prop :=
  cid = att.filename.data ∨
  cid = att.id.data ∨
  lowerL cid = lowerL att.filename.data ∨
  cid = stem att.filename.data ∨
  lowerL cid = lowerL (stem att.filename.data)

/-- The image attachment of the specification's examples. -/
def logoAtt : Attachment :=
  { id := "abc123", emailId := "e1", filename := "logo.png",
    mimeType := "image/png", size := 10, createdAt := 0,
    isLarge := false, chunksCount := 1 }

/-- A second image attachment with the same filename as `logoAtt` but a
different id. -/
def logoAtt2 : Attachment :=
  { id := "zzz999", emailId := "e1", filename := "logo.png",
    mimeType := "image/jpeg", size := 11, createdAt := 0,
    isLarge := false, chunksCount := 1 }

/-- An image attachment whose filename contains regex metacharacters. -/
def plusAtt : Attachment :=
  { id := "p1", emailId := "e1", filename := "a+b.png",
    mimeType := "image/png", size := 10, createdAt := 0,
    isLarge := false, chunksCount := 1 }

/-- A non-image attachment. -/
def textAtt : Attachment :=
  { id := "t1", emailId := "e1", filename := "notes.txt",
    mimeType := "text/plain", size := 10, createdAt := 0,
    isLarge := false, chunksCount := 1 }

end CfTempmail

namespace CfTempmail

theorem toNat_ofNat_lt (n : Nat) (h : n < 55296) : (Char.ofNat n).toNat = n := by
  have hv : n.isValidChar := Or.inl h
  unfold Char.ofNat
  rw [dif_pos hv]
  rfl

theorem lcChar_idem (c : Char) : lcChar (lcChar c) = lcChar c := by
  unfold lcChar
  by_cases h : 65 ≤ c.toNat ∧ c.toNat ≤ 90
  · rw [if_pos h]
    have hval : (Char.ofNat (c.toNat + 32)).toNat = c.toNat + 32 :=
      toNat_ofNat_lt _ (by omega)
    rw [if_neg (by rw [hval]; omega)]
  · rw [if_neg h, if_neg h]

theorem lowerL_idem (l : List Char) : lowerL (lowerL l) = lowerL l := by
  induction l with
  | nil => rfl
  | cons c r ih =>
    simp [lowerL] at ih ⊢
    exact ⟨lcChar_idem c, ih⟩

theorem unescape_escape (s : List Char) : unescapeRegex (escapeRegExp s) = s := by
  induction s with
  | nil => rfl
  | cons c r ih =>
    by_cases h : isRegexMeta c = true
    · simp [escapeRegExp, h, unescapeRegex, ih]
    · have hc : ¬ c = '\\' := by
        intro he; rw [he] at h; exact h rfl
      simp only [escapeRegExp, h, if_false]
      cases he : escapeRegExp r with
      | nil =>
        have : r = [] := by
          cases r with
          | nil => rfl
          | cons d r2 =>
            exfalso
            simp [escapeRegExp] at he
            split at he <;> simp at he
        simp [this, unescapeRegex]
      | cons d r2 =>
        rw [← he] at *
        simp [he, unescapeRegex, hc, ← he, ih]

theorem escapedLiteral_escape (s : List Char) : escapedLiteral (escapeRegExp s) = true := by
  induction s with
  | nil => rfl
  | cons c r ih =>
    by_cases h : isRegexMeta c = true
    · simp [escapeRegExp, h, escapedLiteral, ih]
    · have hc : ¬ c = '\\' := by
        intro he; rw [he] at h; exact h rfl
      simp only [escapeRegExp, h, if_false]
      cases he : escapeRegExp r with
      | nil => simp [escapedLiteral, h]
      | cons d r2 =>
        simp only [Bool.false_eq_true, if_false, escapedLiteral, hc]
        rw [← he]
        simp [h, ih]

theorem find?_append_of_none {α : Type} {p : α → Bool} {l1 l2 : List α}
    (h : ∀ x ∈ l1, p x = false) :
    List.find? p (l1 ++ l2) = List.find? p l2 := by
  have h1 : List.find? p l1 = none :=
    List.find?_eq_none.mpr (fun x hx => by simp [h x hx])
  rw [List.find?_append, h1]
  rfl

theorem replaceFirstSrc_spec (repl : List Char) :
    ∀ (l acc : List Char),
      replaceFirstSrc repl acc l = l ∨
      ∃ pre rest n, l = pre ++ rest ∧ trySrcAttrLen rest = some n ∧
        replaceFirstSrc repl acc l =
          pre ++ (jsSubst (rest.take n) (acc ++ pre) (rest.drop n) repl ++ rest.drop n) := by
  intro l
  induction l with
  | nil => intro acc; left; rfl
  | cons c rest ih =>
    intro acc
    cases h : trySrcAttrLen (c :: rest) with
    | some n =>
      right
      refine ⟨[], c :: rest, n, by simp, h, ?_⟩
      simp [replaceFirstSrc, h]
    | none =>
      have hstep : replaceFirstSrc repl acc (c :: rest) =
          c :: replaceFirstSrc repl (acc ++ [c]) rest := by
        simp [replaceFirstSrc, h]
      rcases ih (acc ++ [c]) with h2 | ⟨pre, r2, n, heq, hlen, hout⟩
      · left; rw [hstep, h2]
      · right
        refine ⟨c :: pre, r2, n, by rw [heq]; rfl, hlen, ?_⟩
        rw [hstep, hout]
        simp

theorem processImgTagU_fst (atts : List Attachment) (tag : List Char) :
    (processImgTagU atts tag).1 = processImgTag atts tag := by
  unfold processImgTagU processImgTag
  split
  · rfl
  · split
    · split <;> rfl
    · rfl

theorem processImgTagU_snd (atts : List Attachment) (tag : List Char) (u : String)
    (h : u ∈ (processImgTagU atts tag).2) :
    ∃ att, att ∈ atts ∧ u = getAttachmentUrl att.id true := by
  unfold processImgTagU at h
  split at h
  · simp at h
  · split at h
    · split at h
      · rename_i att hf
        simp at h
        exact ⟨att, List.mem_of_find?_eq_some hf, h⟩
      · simp at h
    · simp at h

theorem replaceImgTagsUF_fst (atts : List Attachment) :
    ∀ (fuel : Nat) (l : List Char),
      (replaceImgTagsUF atts fuel l).1 = replaceImgTagsF (processImgTag atts) fuel l := by
  intro fuel
  induction fuel with
  | zero => intro l; rfl
  | succ n ih =>
    intro l
    cases l with
    | nil => rfl
    | cons c rest =>
      by_cases hi : isImgStart (c :: rest) = true
      · cases hs : splitAtFirst (fun x => x == '>') (rest.drop 3) with
        | none => simp [replaceImgTagsUF, replaceImgTagsF, hi, hs, ih]
        | some p =>
          obtain ⟨mid, after⟩ := p
          simp [replaceImgTagsUF, replaceImgTagsF, hi, hs, ih, processImgTagU_fst]
      · simp only [Bool.not_eq_true] at hi
        simp [replaceImgTagsUF, replaceImgTagsF, hi, ih]

theorem replaceImgTagsUF_snd (atts : List Attachment) :
    ∀ (fuel : Nat) (l : List Char) (u : String),
      u ∈ (replaceImgTagsUF atts fuel l).2 →
      ∃ att, att ∈ atts ∧ u = getAttachmentUrl att.id true := by
  intro fuel
  induction fuel with
  | zero => intro l u h; simp [replaceImgTagsUF] at h
  | succ n ih =>
    intro l u h
    cases l with
    | nil => simp [replaceImgTagsUF] at h
    | cons c rest =>
      by_cases hi : isImgStart (c :: rest) = true
      · cases hs : splitAtFirst (fun x => x == '>') (rest.drop 3) with
        | none =>
          simp only [replaceImgTagsUF, hi, if_true, hs] at h
          exact ih rest u h
        | some p =>
          obtain ⟨mid, after⟩ := p
          simp only [replaceImgTagsUF, hi, if_true, hs, List.mem_append] at h
          rcases h with h | h
          · exact processImgTagU_snd atts _ u h
          · exact ih after u h
      · simp only [Bool.not_eq_true] at hi
        simp only [replaceImgTagsUF, hi, Bool.false_eq_true, if_false] at h
        exact ih rest u h

/-- Claim C2: for every html string the resolver with an empty attachment
list is a no-op, and the empty html string is returned unchanged for every
attachment list. -/
theorem resolver_empty_cases :
    (∀ html : String, processHtmlContent html [] = html) ∧
    (∀ atts : List Attachment, processHtmlContent "" atts = "") := by
  constructor
  · intro html; simp [processHtmlContent]
  · intro atts; simp [processHtmlContent]

/-- Claim C5: the output of the resolver depends only on the attachments
whose MIME type begins with image/ (restricting the list to that subset
does not change the result), and when that subset is empty the html is
returned unchanged. -/
theorem resolver_image_filter_only :
    (∀ (html : String) (atts : List Attachment),
      processHtmlContent html atts = processHtmlContent html (atts.filter isImageAtt)) ∧
    (∀ (html : String) (atts : List Attachment),
      atts.filter isImageAtt = [] → processHtmlContent html atts = html) := by
  have hff : ∀ atts : List Attachment,
      (atts.filter isImageAtt).filter isImageAtt = atts.filter isImageAtt := by
    intro atts
    rw [List.filter_filter]
    simp
  constructor
  · intro html atts
    by_cases h1 : html = ""
    · simp [processHtmlContent, h1]
    · by_cases h2 : atts = []
      · simp [processHtmlContent, h1, h2]
      · by_cases h3 : atts.filter isImageAtt = []
        · simp [processHtmlContent, h1, h2, h3]
        · simp [processHtmlContent, h1, h2, h3, hff]
  · intro html atts h
    by_cases h1 : html = ""
    · simp [processHtmlContent, h1]
    · by_cases h2 : atts = []
      · simp [processHtmlContent, h1, h2]
      · simp [processHtmlContent, h1, h2, h]

theorem resolver_image_filter_only_witness :
    ([textAtt].filter isImageAtt = []) ∧ processHtmlContent "x" [textAtt] = "x" :=
  ⟨rfl, resolver_image_filter_only.2 "x" [textAtt] rfl⟩

/-- Claim C4: escapeRegExp is information-preserving and turns any
filename into an escaped-literal pattern fragment (a well-formed regex
piece that matches the filename literally), so building the residual
patterns never produces a malformed expression; concretely, the filename
a+b.png with regex metacharacters is matched literally (cid:a+b.png is
replaced) and not as a regex pattern (cid:aab.png, which the raw pattern
would match, is left untouched). -/
theorem escaped_filenames_literal :
    (∀ s : List Char, unescapeRegex (escapeRegExp s) = s) ∧
    (∀ s : List Char, escapedLiteral (escapeRegExp s) = true) ∧
    processHtmlContent "x cid:a+b.png y" [plusAtt] =
      "x " ++ getAttachmentUrl "p1" true ++ " y" ∧
    processHtmlContent "x cid:aab.png y" [plusAtt] = "x cid:aab.png y" :=
  ⟨unescape_escape, escapedLiteral_escape, rfl, rfl⟩

/-- Claim C1: the cid matcher of the tag pass agrees exactly with the
matching criteria stated in the spec (exact filename, exact id,
case-insensitive filename, filename without extension exactly and
case-insensitively); whenever the extracted src value starts with cid:
(case-insensitively) and the first matching image attachment is found, the
tag is rewritten by replacing its src attribute with the constructed
attachment URL; and on the concrete example, an img tag referencing
cid:logo.png against the attachment logo.png with id abc123 resolves to an
img tag whose src is the constructed URL for abc123, as does the
extension-less reference cid:logo. -/
theorem cid_reference_resolution :
    (∀ (cid : List Char) (att : Attachment),
      attMatches cid att = true ↔ specCidCriteria cid att) ∧
    (∀ (atts : List Attachment) (tag src : List Char) (att : Attachment),
      findSrcMatch tag = some src →
      startsWithL ('c' :: 'i' :: 'd' :: ':' :: []) (lowerL src) = true →
      atts.find? (attMatches (src.drop 4)) = some att →
      processImgTag atts tag =
        replaceFirstSrc (srcRepl (getAttachmentUrl att.id true)) [] tag) ∧
    processHtmlContent "<img src=\"cid:logo.png\">" [logoAtt] =
      "<img src=\"" ++ getAttachmentUrl "abc123" true ++ "\">" ∧
    processHtmlContent "<img src=\"cid:logo\">" [logoAtt] =
      "<img src=\"" ++ getAttachmentUrl "abc123" true ++ "\">" := by
  refine ⟨?_, ?_, rfl, rfl⟩
  · intro cid att
    simp only [attMatches, specCidCriteria, Bool.or_eq_true, beq_iff_eq]
    constructor
    · rintro (((((h | h) | h) | h) | h) | h)
      · exact Or.inl h
      · exact Or.inr (Or.inl h)
      · refine Or.inr (Or.inr (Or.inl ?_))
        rw [h, lowerL_idem]
      · exact Or.inr (Or.inr (Or.inl h))
      · exact Or.inr (Or.inr (Or.inr (Or.inl h)))
      · exact Or.inr (Or.inr (Or.inr (Or.inr h)))
    · rintro (h | h | h | h | h)
      · exact Or.inl (Or.inl (Or.inl (Or.inl (Or.inl h))))
      · exact Or.inl (Or.inl (Or.inl (Or.inl (Or.inr h))))
      · exact Or.inl (Or.inl (Or.inr h))
      · exact Or.inl (Or.inr h)
      · exact Or.inr h
  · intro atts tag src att hsrc hcid hfind
    unfold processImgTag
    rw [hsrc]
    simp only [hcid, if_true, hfind]

theorem cid_reference_resolution_witness :
    processImgTag [logoAtt] ("<img src=\"cid:logo.png\">".data) =
      replaceFirstSrc (srcRepl (getAttachmentUrl "abc123" true)) []
        ("<img src=\"cid:logo.png\">".data) :=
  cid_reference_resolution.2.1 [logoAtt] _ ("cid:logo.png".data) logoAtt rfl rfl rfl

/-- Claim C3 counterexample: for the input logo.png occurring as bare text
outside any tag, with the matching image attachment present, the resolver
returns the input unchanged and its output contains no tag opener at all,
so no img tag wrapping the filename is ever produced. -/
theorem bare_filename_not_wrapped_cex :
    processHtmlContent "logo.png" [logoAtt] = "logo.png" ∧
    (processHtmlContent "logo.png" [logoAtt]).data.contains '<' = false :=
  ⟨rfl, rfl⟩

/-- Claim C3 amended: a bare-text occurrence of an image attachment
filename outside any tag is left unchanged; only a cid:-prefixed textual
reference outside img tags is replaced, and it is replaced by the bare
attachment URL, not wrapped into an img tag. -/
theorem bare_filename_untouched_cid_replaced :
    processHtmlContent "logo.png" [logoAtt] = "logo.png" ∧
    processHtmlContent "see cid:logo.png now" [logoAtt] =
      "see " ++ getAttachmentUrl "abc123" true ++ " now" ∧
    (processHtmlContent "see cid:logo.png now" [logoAtt]).data.contains '<' = false :=
  ⟨rfl, rfl, rfl⟩

/-- Claim C6: during the img-tag rewriting pass a tag is returned
unchanged when it has no src attribute, when its src value does not start
with cid: (case-insensitively), or when its cid value matches no image
attachment; and in every case the output is either the tag itself or the
tag with exactly its first (case-sensitively written) src attribute
replaced, everything before and after that attribute being preserved
byte for byte. -/
theorem img_tag_frame (atts : List Attachment) (tag : List Char) :
    (findSrcMatch tag = none → processImgTag atts tag = tag) ∧
    (∀ src, findSrcMatch tag = some src →
      startsWithL ('c' :: 'i' :: 'd' :: ':' :: []) (lowerL src) = false →
      processImgTag atts tag = tag) ∧
    (∀ src, findSrcMatch tag = some src →
      atts.find? (attMatches (src.drop 4)) = none →
      processImgTag atts tag = tag) ∧
    (processImgTag atts tag = tag ∨
      ∃ att pre rest n, att ∈ atts ∧ tag = pre ++ rest ∧
        trySrcAttrLen rest = some n ∧
        processImgTag atts tag =
          pre ++ (jsSubst (rest.take n) pre (rest.drop n)
            (srcRepl (getAttachmentUrl att.id true)) ++ rest.drop n)) := by
  refine ⟨?_, ?_, ?_, ?_⟩
  · intro h; simp [processImgTag, h]
  · intro src hsrc hcid
    unfold processImgTag
    rw [hsrc]
    simp [hcid]
  · intro src hsrc hfind
    unfold processImgTag
    rw [hsrc]
    by_cases hcid : startsWithL ('c' :: 'i' :: 'd' :: ':' :: []) (lowerL src) = true
    · simp [hcid, hfind]
    · simp only [Bool.not_eq_true] at hcid
      simp [hcid]
  · unfold processImgTag
    cases hsrc : findSrcMatch tag with
    | none => exact Or.inl rfl
    | some src =>
      by_cases hcid : startsWithL ('c' :: 'i' :: 'd' :: ':' :: []) (lowerL src) = true
      · simp only [hcid, if_true]
        cases hfind : atts.find? (attMatches (src.drop 4)) with
        | none => exact Or.inl rfl
        | some att =>
          rcases replaceFirstSrc_spec (srcRepl (getAttachmentUrl att.id true)) tag []
            with h | ⟨pre, rest, n, heq, hlen, hout⟩
          · left; simpa using h
          · right
            refine ⟨att, pre, rest, n, List.mem_of_find?_eq_some hfind, heq, hlen, ?_⟩
            simpa using hout
      · simp only [Bool.not_eq_true] at hcid
        simp [hcid]

theorem img_tag_frame_witness :
    processImgTag [logoAtt] ("<img alt=\"x\">".data) = "<img alt=\"x\">".data ∧
    processImgTag [logoAtt] ("<img src=\"http://x/y\">".data) =
      "<img src=\"http://x/y\">".data ∧
    processImgTag [logoAtt] ("<img src=\"cid:none\">".data) =
      "<img src=\"cid:none\">".data :=
  ⟨(img_tag_frame [logoAtt] _).1 rfl,
   (img_tag_frame [logoAtt] _).2.1 ("http://x/y".data) rfl rfl,
   (img_tag_frame [logoAtt] _).2.2.1 ("cid:none".data) rfl rfl⟩

/-- Claim C7: when the attachment list contains two image attachments
with the same filename and the cid reference of the tag matches the
earlier one (no attachment listed before it matching), the rewrite uses
the URL constructed from the first-listed attachment id, independently of
the later duplicate. -/
theorem duplicate_filename_first_wins
    (pre mid post : List Attachment) (a b : Attachment) (tag src : List Char)
    (hsrc : findSrcMatch tag = some src)
    (hcid : startsWithL ('c' :: 'i' :: 'd' :: ':' :: []) (lowerL src) = true)
    (_hfn : a.filename = b.filename)
    (hpre : ∀ x ∈ pre, attMatches (src.drop 4) x = false)
    (ha : attMatches (src.drop 4) a = true) :
    processImgTag (pre ++ a :: (mid ++ b :: post)) tag =
      replaceFirstSrc (srcRepl (getAttachmentUrl a.id true)) [] tag := by
  unfold processImgTag
  rw [hsrc]
  have hfind : (pre ++ a :: (mid ++ b :: post)).find? (attMatches (src.drop 4)) = some a := by
    rw [find?_append_of_none hpre]
    simp [List.find?_cons, ha]
  simp only [hcid, if_true, hfind]

theorem duplicate_filename_first_wins_witness :
    processImgTag [logoAtt, logoAtt2] ("<img src=\"cid:logo.png\">".data) =
      replaceFirstSrc (srcRepl (getAttachmentUrl "abc123" true)) []
        ("<img src=\"cid:logo.png\">".data) :=
  duplicate_filename_first_wins [] [] [] logoAtt logoAtt2 _ ("cid:logo.png".data)
    rfl rfl rfl (by intro x hx; simp at hx) rfl

/-- Claim C8 counterexample: a 404 on the mailbox fetch does set an
error notification (the invalid-address message) and schedules navigation
home after 3 seconds, contradicting the claim that a 404 on email or
mailbox fetch never displays an error banner. -/
theorem mailbox_404_shows_error_cex :
    fetchMailboxEffects ⟨false, 404, false, false⟩ =
      [Eff.setError "mailbox.invalidAddress", Eff.timer 3000 TimerAct.navigateHome] ∧
    Eff.setError "mailbox.invalidAddress" ∈ fetchMailboxEffects ⟨false, 404, false, false⟩ :=
  ⟨rfl, by decide⟩

/-- Claim C8 amended: a 404 on the email fetch triggers cache
invalidation and recovery (handleMailboxNotFound) and closes the detail
view without any error notification; a 404 on the mailbox fetch sets the
invalid-address error notification and navigates home on a 3-second
timer instead of invalidating caches silently. -/
theorem notfound_handling :
    (∀ succ hatts : Bool, fetchEmailEffects false ⟨false, 404, succ, hatts⟩ =
      [Eff.clearMessages, Eff.recoverMailbox, Eff.closeDetail]) ∧
    (∀ succ hatts : Bool, fetchMailboxEffects ⟨false, 404, succ, hatts⟩ =
      [Eff.setError "mailbox.invalidAddress", Eff.timer 3000 TimerAct.navigateHome]) ∧
    (∀ succ hatts : Bool,
      hasErrorNotif (fetchEmailEffects false ⟨false, 404, succ, hatts⟩) = false) :=
  ⟨fun _ _ => rfl, fun _ _ => rfl, fun _ _ => rfl⟩

/-- Claim C9: in every operation that sets a transient notification
(mailbox fetch, mailbox delete, email fetch, email delete) and for every
response, an error notification always comes with a 3-second timer and a
success confirmation with a 2-second timer; the timer either clears the
message or navigates away / closes the view, dismissing it. -/
theorem transient_timer_delays (cached : Bool) (r : HttpResp) :
    notifTimersOk (fetchEmailEffects cached r) ∧
    notifTimersOk (fetchMailboxEffects r) ∧
    notifTimersOk (deleteMailboxEffects r) ∧
    notifTimersOk (deleteEmailEffects r) := by
  obtain ⟨ok, st, succ, hatts⟩ := r
  cases cached <;> cases ok <;> cases succ <;> cases hatts <;>
    by_cases h : st = 404 <;>
      simp [fetchEmailEffects, fetchMailboxEffects, deleteMailboxEffects,
        deleteEmailEffects, notifTimersOk, timerWithDelay, h]

theorem transient_timer_delays_witness :
    timerWithDelay 3000 (deleteMailboxEffects ⟨false, 500, false, false⟩) = true ∧
    timerWithDelay 2000 (deleteMailboxEffects ⟨true, 200, true, false⟩) = true :=
  ⟨(transient_timer_delays false ⟨false, 500, false, false⟩).2.2.1.1
      ⟨"mailbox.deleteFailed", by decide⟩,
   (transient_timer_delays false ⟨true, 200, true, false⟩).2.2.1.2
      ⟨"mailbox.deleteSuccess", by decide⟩⟩

/-- Claim C10: the resolver equals its URL-collecting variant, and every
URL that variant records (every URL the resolver constructs and passes to
a replacement) has the exact form API_BASE_URL, then /api/attachments/,
then the id of some image attachment of the input list, then
?download=true; in particular download mode is always forced and no URL is
built for an attachment outside the input list. -/
theorem attachment_url_form (html : String) (atts : List Attachment) :
    processHtmlContent html atts = (processWithUrls html atts).1 ∧
    ∀ u, u ∈ (processWithUrls html atts).2 →
      ∃ att, att ∈ atts ∧ isImageAtt att = true ∧
        u = API_BASE_URL ++ "/api/attachments/" ++ att.id ++ "?download=true" := by
  have hform : ∀ att : Attachment,
      getAttachmentUrl att.id true =
        API_BASE_URL ++ "/api/attachments/" ++ att.id ++ "?download=true" := by
    intro att; rfl
  constructor
  · by_cases h1 : html = ""
    · simp [processHtmlContent, processWithUrls, h1]
    · by_cases h2 : atts = []
      · simp [processHtmlContent, processWithUrls, h1, h2]
      · by_cases h3 : atts.filter isImageAtt = []
        · simp [processHtmlContent, processWithUrls, h1, h2, h3]
        · simp [processHtmlContent, processWithUrls, h1, h2, h3, replaceImgTags,
            replaceImgTagsUF_fst]
  · intro u hu
    by_cases h1 : html = ""
    · simp [processWithUrls, h1] at hu
    · by_cases h2 : atts = []
      · simp [processWithUrls, h1, h2] at hu
      · by_cases h3 : atts.filter isImageAtt = []
        · simp [processWithUrls, h1, h2, h3] at hu
        · simp [processWithUrls, h1, h2, h3] at hu
          rcases hu with hu | ⟨a, ⟨hmem, himg⟩, hequ⟩
          · obtain ⟨att, hmem, hequ⟩ :=
              replaceImgTagsUF_snd (atts.filter isImageAtt) html.length html.data u hu
            rw [List.mem_filter] at hmem
            refine ⟨att, hmem.1, hmem.2, ?_⟩
            rw [hequ]
            exact hform att
          · refine ⟨a, hmem, himg, ?_⟩
            rw [← hequ]
            exact hform a

theorem attachment_url_form_witness :
    ∃ att, att ∈ [logoAtt] ∧ isImageAtt att = true ∧
      (API_BASE_URL ++ "/api/attachments/abc123?download=true" : String) =
        API_BASE_URL ++ "/api/attachments/" ++ att.id ++ "?download=true" :=
  (attachment_url_form "<img src=\"cid:logo.png\">" [logoAtt]).2
    (API_BASE_URL ++ "/api/attachments/abc123?download=true") (by decide)

end CfTempmail
